import Mathlib

/-!
Verification of `cli::detail::from_string`.

Shallow embedding of `include/cli/detail/fromstring.h` (the non-Boost branch)
and proofs of the contract of its integer, boolean, character, floating-point,
string and null-sentinel conversions.

Modelling conventions.

* A `std::string` is the list of its `char`s (`CString`); `s.empty()` is
  `s.isEmpty`, `s.size()` is `s.length`, `s[0]` is the head, `s.substr(1)` is
  the tail.
* A conversion returns `Except Error _`; `throw bad_conversion()` is
  `Except.error Error.bad_conversion`.  No other exception can escape the
  functions modelled here.
* An unsigned value of width `w` is a `Nat` below `2 ^ w.bits`; a signed value is
  an `Int`.  Conversions to an unsigned type reduce modulo `2 ^ w.bits`
  (`Width.wrap`), conversions to a signed type (and signed negation at the
  widths that are not promoted) reduce to the two's-complement representative
  (`Width.swrap`).
* `unsigned char` and `unsigned short` have a rank below `int`: their arithmetic
  is carried out in `int` (no wrap-around can occur there, the operands are
  below `2 ^ 16`) and only the initialisation of a `T` truncates.  `unsigned int`
  and `unsigned long` arithmetic wraps at every operation.
-/

namespace cli.detail

/-! ## Data model -/

/-- The contents of a `std::string`: its sequence of `char`s. -/
abbrev CString := List Char

/-- The only exception type of the header. -/
inductive Error where
  | bad_conversion
  deriving DecidableEq, Repr

instance instDecidableEqExcept {ε α : Type} [DecidableEq ε] [DecidableEq α] :
    DecidableEq (Except ε α)
  | .ok a, .ok b =>
    if h : a = b then isTrue (congrArg Except.ok h)
    else isFalse (fun h2 => h (Except.ok.inj h2))
  | .error a, .error b =>
    if h : a = b then isTrue (congrArg Except.error h)
    else isFalse (fun h2 => h (Except.error.inj h2))
  | .ok _, .error _ => isFalse (fun h => Except.noConfusion h)
  | .error _, .ok _ => isFalse (fun h => Except.noConfusion h)

/-- The integer widths for which `from_string` is specialised: `char`, `short`,
`int` and `long`/`long long` (LP64). -/
inductive Width where
  | w8
  | w16
  | w32
  | w64
  deriving DecidableEq, Repr

/-- Number of value bits of the unsigned type of the width. -/
def Width.bits : Width → Nat
  | .w8 => 8
  | .w16 => 16
  | .w32 => 32
  | .w64 => 64

/-- One more than `std::numeric_limits<U>::max()`. -/
def Width.modulus (w : Width) : Nat := 2 ^ w.bits

/-- Whether operands of the width undergo integral promotion to `int`. -/
def Width.promoted : Width → Bool
  | .w8 => true
  | .w16 => true
  | .w32 => false
  | .w64 => false

/-- Conversion of an integer to the unsigned type of width `w`. -/
def Width.wrap (w : Width) (x : Int) : Nat := (x % (w.modulus : Int)).toNat

/-- Conversion of an integer to the signed type of width `w` (two's complement). -/
def Width.swrap (w : Width) (x : Int) : Int :=
  let m : Int := x % (w.modulus : Int)
  if m < (w.modulus : Int) / 2 then m else m - (w.modulus : Int)

/-- The value `std::numeric_limits<T>::max()` of the signed type. -/
def Width.smax (w : Width) : Int := (2 : Int) ^ (w.bits - 1) - 1

/-- The value `std::numeric_limits<T>::min()` of the signed type. -/
def Width.smin (w : Width) : Int := -(2 : Int) ^ (w.bits - 1)

/-- The value `std::numeric_limits<U>::max()` of the unsigned type. -/
def Width.umax (w : Width) : Nat := 2 ^ w.bits - 1

/-- Unary minus on a signed operand of width `w`: exact in `int` for the promoted
widths, two's-complement wrap-around otherwise. -/
def Width.neg (w : Width) (x : Int) : Int :=
  if w.promoted then -x else w.swrap (-x)

/-! ## The conversions -/

/-- The check `std::isdigit(c)`: it holds exactly for the ten characters `0` to
`9` (codes 48 to 57). -/
def isdigit (c : Char) : Bool := decide (48 ≤ c.toNat) && decide (c.toNat ≤ 57)

/-- The test `result != ((tmp-digit)/10) || (tmp < result)` of the loop body,
for operands of type `T` of width `w`. -/
def overflow_check (w : Width) (result digit tmp : Nat) : Bool :=
  if w.promoted then
    decide ((result : Int) ≠ Int.tdiv ((tmp : Int) - (digit : Int)) 10)
      || decide ((tmp : Int) < (result : Int))
  else
    decide (result ≠ w.wrap ((tmp : Int) - (digit : Int)) / 10) || decide (tmp < result)

/-- The initialiser `(result * 10) + digit` of `tmp`, converted to `T`. -/
def next_value (w : Width) (result digit : Nat) : Nat :=
  if w.promoted then
    w.wrap ((result : Int) * 10 + (digit : Int))
  else
    w.wrap ((w.wrap ((result : Int) * 10) : Int) + (digit : Int))

/-- One iteration of the loop of `unsigned_digits_from_string`: the new value
of `result`, or the exception. -/
def digit_step (w : Width) (result : Nat) (c : Char) : Except Error Nat :=
  if !isdigit c then .error .bad_conversion
  else
    let digit : Nat := w.wrap ((c.toNat : Int) - (('0' : Char).toNat : Int))
    let tmp : Nat := next_value w result digit
    if overflow_check w result digit tmp then .error .bad_conversion
    else .ok tmp

/-- The loop `for (char c: s)` of `unsigned_digits_from_string`, started with
accumulator `result`. -/
def digits_loop (w : Width) : Nat → CString → Except Error Nat
  | result, [] => .ok result
  | result, c :: cs =>
    match digit_step w result c with
    | .error e => .error e
    | .ok tmp => digits_loop w tmp cs

/-- Embedding of `unsigned_digits_from_string<T>` for the unsigned `T` of width `w`. -/
def unsigned_digits_from_string (w : Width) (s : CString) : Except Error Nat :=
  if s.isEmpty then .error .bad_conversion
  else digits_loop w 0 s

/-- Embedding of `unsigned_from_string<T>`. -/
def unsigned_from_string (w : Width) (s : CString) : Except Error Nat :=
  match s with
  | [] => .error .bad_conversion
  | c :: rest =>
    let s1 : CString := if c = '+' then rest else c :: rest
    unsigned_digits_from_string w s1

/-- Embedding of `signed_from_string<T>` for the signed `T` of width `w`, with
`U = std::make_unsigned_t<T>`. -/
def signed_from_string (w : Width) (s : CString) : Except Error Int :=
  match s with
  | [] => .error .bad_conversion
  | c :: rest =>
    if c = '-' then
      match unsigned_digits_from_string w rest with
      | .error e => .error e
      | .ok val =>
        if val > w.wrap (w.neg w.smin) then .error .bad_conversion
        else .ok (w.swrap (w.neg (w.swrap (val : Int))))
    else
      let s1 : CString := if c = '+' then rest else c :: rest
      match unsigned_digits_from_string w s1 with
      | .error e => .error e
      | .ok val =>
        if val > w.wrap w.smax then .error .bad_conversion
        else .ok (w.swrap (val : Int))

/-- The specialisation `from_string<bool>`. -/
def from_string_bool (s : CString) : Except Error Bool :=
  if s = "true".toList then .ok true
  else if s = "false".toList then .ok false
  else
    match signed_from_string .w64 s with
    | .error e => .error e
    | .ok value =>
      if value = 1 then .ok true
      else if value = 0 then .ok false
      else .error .bad_conversion

/-- The specialisation `from_string<char>`. -/
def from_string_char (s : CString) : Except Error Char :=
  if h : s.length ≠ 1 then .error .bad_conversion
  else .ok (s.get ⟨0, by omega⟩)

/-- The specialisations `from_string<unsigned char>`, `from_string<unsigned short int>`,
`from_string<unsigned int>`, `from_string<unsigned long int>` and
`from_string<unsigned long long int>`. -/
def from_string_unsigned (w : Width) (s : CString) : Except Error Nat :=
  unsigned_from_string w s

/-- The specialisations `from_string<signed char>`, `from_string<short int>`,
`from_string<int>`, `from_string<long int>` and `from_string<long long int>`. -/
def from_string_signed (w : Width) (s : CString) : Except Error Int :=
  signed_from_string w s

/-! ## Specification vocabulary

The notions the contract is phrased in: decimal digits, the number a digit
string denotes, and the canonical decimal rendering of a number. -/

/-- A decimal digit character. -/
def IsDecimalDigit (c : Char) : Prop := c ∈ "0123456789".toList

instance instDecidableIsDecimalDigit (c : Char) : Decidable (IsDecimalDigit c) := by
  unfold IsDecimalDigit
  infer_instance

/-- A non-empty sequence of decimal digits. -/
def IsDigitString (ds : CString) : Prop := ds ≠ [] ∧ ∀ c ∈ ds, IsDecimalDigit c

instance instDecidableIsDigitString (ds : CString) : Decidable (IsDigitString ds) := by
  unfold IsDigitString
  infer_instance

/-- The value of a digit character. -/
def digitValue (c : Char) : Nat := c.toNat - ('0' : Char).toNat

/-- The number denoted by the digits `ds` read after digits denoting `acc`. -/
def decimalValueFrom (acc : Nat) (ds : CString) : Nat :=
  ds.foldl (fun a c => 10 * a + digitValue c) acc

/-- The decimal value of a digit string. -/
def decimalValue (ds : CString) : Nat := decimalValueFrom 0 ds

/-- An unsigned decimal token: one optional leading `+` followed by a non-empty
sequence of decimal digits whose decimal value is `n`. -/
def UnsignedToken (s : CString) (n : Nat) : Prop :=
  ∃ ds : CString, (s = ds ∨ s = '+' :: ds) ∧ IsDigitString ds ∧ decimalValue ds = n

/-- A signed decimal token: one optional leading sign (`+` or `-`) followed by a
non-empty sequence of decimal digits; `v` is the signed integer it denotes. -/
def SignedToken (s : CString) (v : Int) : Prop :=
  ∃ ds : CString, IsDigitString ds ∧
    (((s = ds ∨ s = '+' :: ds) ∧ v = (decimalValue ds : Int)) ∨
      (s = '-' :: ds ∧ v = -(decimalValue ds : Int)))

/-- The canonical decimal rendering of a natural number: its digits without
leading zeros (`0` is rendered `0`). -/
def render_nat (n : Nat) : CString := Nat.toDigits 10 n

/-- The canonical decimal rendering of an integer: a leading `-` for negative
values, no `+`. -/
def render_int (v : Int) : CString :=
  if v < 0 then '-' :: render_nat v.natAbs else render_nat v.toNat

/-! ## Floating point, string and null-sentinel conversions

The standard conversions `std::stof`, `std::stod` and `std::stold` are not part
of the header.  Each is taken as a parameter: a function that on a string either
throws (`none`) or returns the converted value together with the number of
characters it consumed (the value written to `sz`).  The type `F` of the
floating-point values is left abstract. -/

/-- The check `std::isspace(c)`: space, horizontal tab, line feed, vertical tab,
form feed and carriage return (codes 32 and 9 to 13). -/
def isspace (c : Char) : Bool :=
  decide (c.toNat = 32) || (decide (9 ≤ c.toNat) && decide (c.toNat ≤ 13))

/-- The specialisation `from_string<float>`, over the conversion `std::stof`. -/
def from_string_float {F : Type} (stof : CString → Option (F × Nat)) (s : CString) :
    Except Error F :=
  if s.any isspace then .error .bad_conversion
  else
    match stof s with
    | none => .error .bad_conversion
    | some (result, sz) =>
      if sz ≠ s.length then .error .bad_conversion
      else .ok result

/-- The specialisation `from_string<double>`, over the conversion `std::stod`. -/
def from_string_double {F : Type} (stod : CString → Option (F × Nat)) (s : CString) :
    Except Error F :=
  if s.any isspace then .error .bad_conversion
  else
    match stod s with
    | none => .error .bad_conversion
    | some (result, sz) =>
      if sz ≠ s.length then .error .bad_conversion
      else .ok result

/-- The specialisation `from_string<long double>`, over the conversion `std::stold`. -/
def from_string_long_double {F : Type} (stold : CString → Option (F × Nat)) (s : CString) :
    Except Error F :=
  if s.any isspace then .error .bad_conversion
  else
    match stold s with
    | none => .error .bad_conversion
    | some (result, sz) =>
      if sz ≠ s.length then .error .bad_conversion
      else .ok result

/-- The specialisation `from_string<std::string>`. -/
def from_string_string (s : CString) : Except Error CString := .ok s

/-- The specialisation `from_string<std::nullptr_t>`; the value `nullptr` is the
only value of its type. -/
def from_string_nullptr (_s : CString) : Except Error Unit := .ok ()

/-- A whitespace character: space, tab, newline, vertical tab, form feed or
carriage return. -/
def IsWhitespace (c : Char) : Prop :=
  c = ' ' ∨ c = '\t' ∨ c = '\n' ∨ c = Char.ofNat 11 ∨ c = Char.ofNat 12 ∨ c = '\r'

instance instDecidableIsWhitespace (c : Char) : Decidable (IsWhitespace c) := by
  unfold IsWhitespace
  infer_instance

/-! ## The two disjuncts of the overflow check -/

/-- The first disjunct `result != ((tmp-digit)/10)` of the overflow check. -/
def reconstruction_differs (w : Width) (result digit tmp : Nat) : Bool :=
  if w.promoted then
    decide ((result : Int) ≠ Int.tdiv ((tmp : Int) - (digit : Int)) 10)
  else
    decide (result ≠ w.wrap ((tmp : Int) - (digit : Int)) / 10)

/-- The second disjunct `tmp < result` of the overflow check. -/
def value_decreased (w : Width) (result tmp : Nat) : Bool :=
  if w.promoted then decide ((tmp : Int) < (result : Int))
  else decide (tmp < result)

/-! ## Machine arithmetic -/

theorem modulus_w8 : Width.modulus .w8 = 256 := by
  decide

theorem modulus_w16 : Width.modulus .w16 = 65536 := by
  decide

theorem modulus_w32 : Width.modulus .w32 = 4294967296 := by
  norm_num [Width.modulus, Width.bits]

theorem modulus_w64 : Width.modulus .w64 = 18446744073709551616 := by
  norm_num [Width.modulus, Width.bits]

theorem tdiv_ten (x : Int) :
    Int.tdiv x 10 = if 0 ≤ x then x / 10 else -((-x) / 10) := by
  by_cases h : 0 ≤ x
  · rw [if_pos h]; exact Int.tdiv_eq_ediv h (by decide)
  · rw [if_neg h]
    have h2 : 0 ≤ -x := by omega
    have := Int.tdiv_eq_ediv (a := -x) (b := 10) h2 (by decide)
    rw [← this, Int.neg_tdiv, Int.neg_neg]

theorem wrap_natCast (w : Width) (n : Nat) : w.wrap (n : Int) = n % w.modulus := by
  unfold Width.wrap
  rw [← Int.natCast_mod, Int.toNat_natCast]

theorem next_value_eq (w : Width) (r d : Nat) :
    next_value w r d = (10 * r + d) % w.modulus := by
  have h1 : ((r : Int) * 10 + (d : Int)) = ((10 * r + d : Nat) : Int) := by push_cast; ring
  have h2 : ((r : Int) * 10) = ((10 * r : Nat) : Int) := by push_cast; ring
  unfold next_value
  split
  · rw [h1, wrap_natCast]
  · rw [h2, wrap_natCast, ← Nat.cast_add, wrap_natCast, Nat.mod_add_mod]

/-- Quotient of an overflowing step: the wrapped value differs from the exact
one by `k` times the modulus with `1 ≤ k ≤ 9`. -/
theorem overflow_quotient (m r d : Nat) (hm : 10 ≤ m) (hr : r < m) (hd : d ≤ 9)
    (ho : m ≤ 10 * r + d) :
    ∃ k, 1 ≤ k ∧ k ≤ 9 ∧ m * k + (10 * r + d) % m = 10 * r + d ∧ (10 * r + d) % m < m := by
  refine ⟨(10 * r + d) / m, ?_, ?_, Nat.div_add_mod _ _, Nat.mod_lt _ (by omega)⟩
  · exact Nat.div_pos ho (by omega)
  · have : (10 * r + d) / m < 10 := by
      apply Nat.div_lt_of_lt_mul
      omega
    omega

theorem wrap_add_modulus (w : Width) (x : Int) : w.wrap (x + (w.modulus : Int)) = w.wrap x := by
  unfold Width.wrap
  rw [Int.add_emod_self]

theorem wrap_sub (w : Width) (t d : Nat) (ht : t < w.modulus) (hd : d ≤ w.modulus) :
    w.wrap ((t : Int) - (d : Int)) = if d ≤ t then t - d else t + w.modulus - d := by
  split
  · rename_i h
    have e : ((t : Int) - (d : Int)) = ((t - d : Nat) : Int) := by omega
    rw [e, wrap_natCast, Nat.mod_eq_of_lt (by omega)]
  · rename_i h
    have e : ((t : Int) - (d : Int)) + (w.modulus : Int) = ((t + w.modulus - d : Nat) : Int) := by
      omega
    rw [← wrap_add_modulus, e, wrap_natCast, Nat.mod_eq_of_lt (by omega)]

theorem overflow_check_iff (w : Width) (r d : Nat) (hr : r < w.modulus) (hd : d ≤ 9) :
    overflow_check w r d (next_value w r d) = true ↔ w.modulus ≤ 10 * r + d := by
  rw [next_value_eq]
  have hm : 10 ≤ w.modulus := by cases w <;> decide
  have hlt : (10 * r + d) % w.modulus < w.modulus := Nat.mod_lt _ (by omega)
  unfold overflow_check
  rw [wrap_sub w _ d hlt (by omega), tdiv_ten]
  by_cases ho : w.modulus ≤ 10 * r + d
  · simp only [ho, iff_true]
    obtain ⟨k, hk1, hk9, hk, -⟩ := overflow_quotient w.modulus r d hm hr hd ho
    generalize (10 * r + d) % w.modulus = t at hk hlt ⊢
    cases w <;>
      simp only [Width.promoted, modulus_w8, modulus_w16, modulus_w32,
        modulus_w64, if_true, if_false, Bool.false_eq_true,
        Bool.or_eq_true, decide_eq_true_eq] at * <;>
      interval_cases k <;>
      first
        | omega
        | (split <;> omega)
  · simp only [ho, iff_false]
    rw [Nat.mod_eq_of_lt (by omega)]
    cases w <;>
      simp only [Width.promoted, modulus_w8, modulus_w16, modulus_w32,
        modulus_w64, if_true, if_false, Bool.false_eq_true,
        Bool.or_eq_true, decide_eq_true_eq] at * <;>
      first
        | omega
        | (split <;> omega)


theorem toNat_zero_char : ('0' : Char).toNat = 48 := by decide

theorem isdigit_iff_toNat (c : Char) : isdigit c = true ↔ 48 ≤ c.toNat ∧ c.toNat ≤ 57 := by
  simp [isdigit]

theorem isdigit_iff (c : Char) : isdigit c = true ↔ IsDecimalDigit c := by
  rw [isdigit_iff_toNat]
  constructor
  · rintro ⟨h1, h2⟩
    have hc : c = Char.ofNat c.toNat := (Char.ofNat_toNat c).symm
    generalize c.toNat = n at hc h1 h2
    subst hc
    interval_cases n <;> decide
  · intro h
    unfold IsDecimalDigit at h
    simp only [String.toList, List.mem_cons, List.mem_singleton] at h
    rcases h with h | h | h | h | h | h | h | h | h | h | h <;> first | (subst h; decide) | simp at h

theorem digit_of_isdigit (w : Width) (c : Char) (h : isdigit c = true) :
    w.wrap ((c.toNat : Int) - (('0' : Char).toNat : Int)) = digitValue c ∧ digitValue c ≤ 9 := by
  rw [isdigit_iff_toNat] at h
  have hm : 10 ≤ w.modulus := by cases w <;> decide
  have e : ((c.toNat : Int) - (('0' : Char).toNat : Int)) = ((digitValue c : Nat) : Int) := by
    unfold digitValue
    rw [toNat_zero_char]
    omega
  have h9 : digitValue c ≤ 9 := by
    unfold digitValue
    rw [toNat_zero_char]
    omega
  rw [e, wrap_natCast, Nat.mod_eq_of_lt (by omega)]
  exact ⟨rfl, h9⟩

theorem le_decimalValueFrom (ds : CString) : ∀ acc, acc ≤ decimalValueFrom acc ds := by
  induction ds with
  | nil => intro acc; exact Nat.le_refl _
  | cons c cs ih =>
    intro acc
    have := ih (10 * acc + digitValue c)
    simp only [decimalValueFrom, List.foldl_cons] at this ⊢
    omega

theorem digit_step_eq (w : Width) (r : Nat) (c : Char) (hr : r < w.modulus) :
    digit_step w r c =
      if isdigit c = true ∧ 10 * r + digitValue c < w.modulus then .ok (10 * r + digitValue c)
      else .error .bad_conversion := by
  unfold digit_step
  by_cases hc : isdigit c = true
  · obtain ⟨hd, h9⟩ := digit_of_isdigit w c hc
    simp only [hc, Bool.not_true, Bool.false_eq_true, if_false, true_and, hd]
    by_cases ho : w.modulus ≤ 10 * r + digitValue c
    · rw [if_pos ((overflow_check_iff w r _ hr h9).2 ho), if_neg (by omega)]
    · have hn : ¬ overflow_check w r (digitValue c) (next_value w r (digitValue c)) = true :=
        fun h => ho ((overflow_check_iff w r _ hr h9).1 h)
      rw [if_neg hn, if_pos (by omega), next_value_eq, Nat.mod_eq_of_lt (by omega)]
  · simp [hc]

theorem digits_loop_ok (w : Width) (cs : CString) :
    ∀ r n, r < w.modulus →
      (digits_loop w r cs = .ok n ↔
        (∀ c ∈ cs, isdigit c = true) ∧ decimalValueFrom r cs = n ∧ n < w.modulus) := by
  induction cs with
  | nil =>
    intro r n hr
    simp only [digits_loop, decimalValueFrom, List.foldl_nil, Except.ok.injEq, List.not_mem_nil,
      false_imp_iff, implies_true, true_and]
    constructor
    · intro h; subst h; exact ⟨rfl, hr⟩
    · intro h; exact h.1
  | cons c cs ih =>
    intro r n hr
    rw [digits_loop, digit_step_eq w r c hr]
    by_cases h : isdigit c = true ∧ 10 * r + digitValue c < w.modulus
    · rw [if_pos h]
      simp only [ih _ n h.2, List.mem_cons, forall_eq_or_imp, h.1, true_and]
      rfl
    · rw [if_neg h]
      constructor
      · intro he
        exact absurd he (by simp)
      · rintro ⟨hc, hv, hn⟩
        have hle := le_decimalValueFrom cs (10 * r + digitValue c)
        have hv2 : decimalValueFrom (10 * r + digitValue c) cs = n := hv
        exact absurd ⟨hc c (List.mem_cons_self _ _), by omega⟩ h


/-! ## Characterisation of the integer parsers -/

theorem error_iff_not_ok {α : Type} (r : Except Error α) :
    r = .error .bad_conversion ↔ ¬ ∃ a, r = .ok a := by
  cases r with
  | error e => cases e; simp
  | ok a => simp

theorem plus_not_digit : ¬ IsDecimalDigit '+' := by
  decide

theorem minus_not_digit : ¬ IsDecimalDigit '-' := by
  decide

theorem unsigned_digits_ok (w : Width) (s : CString) (n : Nat) :
    unsigned_digits_from_string w s = .ok n ↔
      IsDigitString s ∧ decimalValue s = n ∧ n < w.modulus := by
  have h0 : 0 < w.modulus := by cases w <;> decide
  unfold unsigned_digits_from_string IsDigitString decimalValue
  cases s with
  | nil => simp
  | cons c cs =>
    simp only [List.isEmpty_cons, Bool.false_eq_true, if_false, ne_eq, not_false_eq_true,
      true_and, reduceCtorEq]
    rw [digits_loop_ok w (c :: cs) 0 n h0]
    simp only [isdigit_iff]

theorem unsigned_from_string_ok (w : Width) (s : CString) (n : Nat) :
    unsigned_from_string w s = .ok n ↔ UnsignedToken s n ∧ n < w.modulus := by
  unfold unsigned_from_string UnsignedToken
  cases s with
  | nil =>
    simp only [reduceCtorEq, false_iff, not_and, forall_exists_index]
    rintro ds ⟨h | h, hd, -⟩
    · exact absurd h.symm hd.1
    · exact absurd h (by simp)
  | cons c rest =>
    by_cases hc : c = '+'
    · subst hc
      simp only [if_true, unsigned_digits_ok]
      constructor
      · intro h
        exact ⟨⟨rest, Or.inr rfl, h.1, h.2.1⟩, h.2.2⟩
      · rintro ⟨⟨ds, h | h, hd, hv⟩, hn⟩
        · subst h
          exact absurd (hd.2 '+' (List.mem_cons_self _ _)) plus_not_digit
        · simp only [List.cons.injEq, true_and] at h
          subst h
          exact ⟨hd, hv, hn⟩
    · simp only [hc, if_false, unsigned_digits_ok]
      constructor
      · intro h
        exact ⟨⟨c :: rest, Or.inl rfl, h.1, h.2.1⟩, h.2.2⟩
      · rintro ⟨⟨ds, h | h, hd, hv⟩, hn⟩
        · subst h
          exact ⟨hd, hv, hn⟩
        · simp only [List.cons.injEq] at h
          exact absurd h.1 hc

theorem half_w8 : (2 : Int) ^ (Width.bits .w8 - 1) = 128 := by
  decide

theorem half_w16 : (2 : Int) ^ (Width.bits .w16 - 1) = 32768 := by
  decide

theorem half_w32 : (2 : Int) ^ (Width.bits .w32 - 1) = 2147483648 := by
  norm_num [Width.bits]

theorem half_w64 : (2 : Int) ^ (Width.bits .w64 - 1) = 9223372036854775808 := by
  norm_num [Width.bits]

theorem modulus_eq_two_half (w : Width) : (w.modulus : Int) = 2 * (2 : Int) ^ (w.bits - 1) := by
  cases w <;> simp only [modulus_w8, modulus_w16, modulus_w32, modulus_w64, half_w8, half_w16,
    half_w32, half_w64] <;> norm_num

/-- The bound `static_cast<U>( - std::numeric_limits<T>::min() )` is `2 ^ (W - 1)`. -/
theorem wrap_neg_smin (w : Width) : ((w.wrap (w.neg w.smin) : Nat) : Int) = (2 : Int) ^ (w.bits - 1) := by
  cases w <;>
    simp only [Width.wrap, Width.neg, Width.swrap, Width.smin, Width.promoted, modulus_w8,
      modulus_w16, modulus_w32, modulus_w64, half_w8, half_w16, half_w32, half_w64, if_true,
      if_false, Bool.false_eq_true, Nat.cast_ofNat, neg_neg] <;>
    norm_num

/-- The bound `static_cast<U>( std::numeric_limits<T>::max() )` is `2 ^ (W - 1) - 1`. -/
theorem wrap_smax (w : Width) : ((w.wrap w.smax : Nat) : Int) = (2 : Int) ^ (w.bits - 1) - 1 := by
  cases w <;>
    simp only [Width.wrap, Width.smax, modulus_w8,
      modulus_w16, modulus_w32, modulus_w64, half_w8, half_w16, half_w32, half_w64,
      Nat.cast_ofNat] <;>
    norm_num

/-- A magnitude within the positive range is unchanged by `static_cast<T>`. -/
theorem swrap_of_le_smax (w : Width) (val : Nat) (h : (val : Int) ≤ (2 : Int) ^ (w.bits - 1) - 1) :
    w.swrap (val : Int) = (val : Int) := by
  cases w <;>
    simp only [Width.swrap, modulus_w8,
      modulus_w16, modulus_w32, modulus_w64, half_w8, half_w16, half_w32, half_w64,
      Nat.cast_ofNat] at * <;>
    split <;> omega

/-- A magnitude up to `2 ^ (W - 1)` is negated exactly by `- static_cast<T>(val)`. -/
theorem swrap_neg_swrap (w : Width) (val : Nat) (h : (val : Int) ≤ (2 : Int) ^ (w.bits - 1)) :
    w.swrap (w.neg (w.swrap (val : Int))) = -(val : Int) := by
  cases w <;>
    simp only [Width.swrap, Width.neg, Width.promoted, modulus_w8,
      modulus_w16, modulus_w32, modulus_w64, half_w8, half_w16, half_w32, half_w64, if_true,
      if_false, Bool.false_eq_true, Nat.cast_ofNat] at * <;>
    split_ifs <;> omega

/-- The branch of `signed_from_string` taken after a leading `-`. -/
theorem signed_negative_branch (w : Width) (rest : CString) (v : Int) :
    (match unsigned_digits_from_string w rest with
      | .error e => (Except.error e : Except Error Int)
      | .ok val =>
        if val > w.wrap (w.neg w.smin) then .error .bad_conversion
        else .ok (w.swrap (w.neg (w.swrap (val : Int))))) = .ok v ↔
      IsDigitString rest ∧ v = -(decimalValue rest : Int) ∧ w.smin ≤ v := by
  have hb := wrap_neg_smin w
  have hm := modulus_eq_two_half w
  have hpos : (0 : Int) < (2 : Int) ^ (w.bits - 1) := by positivity
  cases h : unsigned_digits_from_string w rest with
  | error e =>
    simp only [reduceCtorEq, false_iff, not_and]
    intro hd hv hmin
    have hok : unsigned_digits_from_string w rest = .ok (decimalValue rest) := by
      rw [unsigned_digits_ok]
      refine ⟨hd, rfl, ?_⟩
      have hs : w.smin = -(2 : Int) ^ (w.bits - 1) := rfl
      omega
    rw [hok] at h
    exact absurd h (by simp)
  | ok val =>
    obtain ⟨hd, hv, hlt⟩ := (unsigned_digits_ok w rest val).1 h
    subst hv
    simp only [hd, true_and]
    have hs : w.smin = -(2 : Int) ^ (w.bits - 1) := rfl
    by_cases hgt : decimalValue rest > w.wrap (w.neg w.smin)
    · rw [if_pos hgt]
      simp only [reduceCtorEq, false_iff, not_and]
      intro hv
      omega
    · rw [if_neg hgt, swrap_neg_swrap w _ (by omega), Except.ok.injEq]
      constructor
      · intro e
        subst e
        exact ⟨rfl, by omega⟩
      · intro e
        exact e.1.symm

/-- The branch of `signed_from_string` taken without a leading `-`. -/
theorem signed_positive_branch (w : Width) (s1 : CString) (v : Int) :
    (match unsigned_digits_from_string w s1 with
      | .error e => (Except.error e : Except Error Int)
      | .ok val =>
        if val > w.wrap w.smax then .error .bad_conversion
        else .ok (w.swrap (val : Int))) = .ok v ↔
      IsDigitString s1 ∧ v = (decimalValue s1 : Int) ∧ v ≤ w.smax := by
  have hb := wrap_smax w
  have hm := modulus_eq_two_half w
  have hpos : (0 : Int) < (2 : Int) ^ (w.bits - 1) := by positivity
  cases h : unsigned_digits_from_string w s1 with
  | error e =>
    simp only [reduceCtorEq, false_iff, not_and]
    intro hd hv hmax
    have hok : unsigned_digits_from_string w s1 = .ok (decimalValue s1) := by
      rw [unsigned_digits_ok]
      refine ⟨hd, rfl, ?_⟩
      have hs : w.smax = (2 : Int) ^ (w.bits - 1) - 1 := rfl
      omega
    rw [hok] at h
    exact absurd h (by simp)
  | ok val =>
    obtain ⟨hd, hv, hlt⟩ := (unsigned_digits_ok w s1 val).1 h
    subst hv
    simp only [hd, true_and]
    have hs : w.smax = (2 : Int) ^ (w.bits - 1) - 1 := rfl
    by_cases hgt : decimalValue s1 > w.wrap w.smax
    · rw [if_pos hgt]
      simp only [reduceCtorEq, false_iff, not_and]
      intro hv
      omega
    · rw [if_neg hgt, swrap_of_le_smax w _ (by omega), Except.ok.injEq]
      constructor
      · intro e
        subst e
        exact ⟨rfl, by omega⟩
      · intro e
        exact e.1.symm

theorem signed_from_string_ok (w : Width) (s : CString) (v : Int) :
    signed_from_string w s = .ok v ↔ SignedToken s v ∧ w.smin ≤ v ∧ v ≤ w.smax := by
  have hpos : (0 : Int) < (2 : Int) ^ (w.bits - 1) := by positivity
  have hsmin : w.smin = -(2 : Int) ^ (w.bits - 1) := rfl
  have hsmax : w.smax = (2 : Int) ^ (w.bits - 1) - 1 := rfl
  unfold signed_from_string SignedToken
  cases s with
  | nil =>
    simp only [reduceCtorEq, false_iff]
    rintro ⟨⟨ds, hd, (⟨h | h, -⟩ | ⟨h, -⟩)⟩, -⟩
    · exact absurd h.symm hd.1
    · exact absurd h (by simp)
    · exact absurd h (by simp)
  | cons c rest =>
    by_cases hm : c = '-'
    · subst hm
      simp only [if_true]
      rw [signed_negative_branch]
      constructor
      · rintro ⟨hd, hv, hmin⟩
        refine ⟨⟨rest, hd, Or.inr ⟨rfl, hv⟩⟩, hmin, ?_⟩
        omega
      · rintro ⟨⟨ds, hd, (⟨h | h, hv⟩ | ⟨h, hv⟩)⟩, hmin, -⟩
        · subst h
          exact absurd (hd.2 '-' (List.mem_cons_self _ _)) minus_not_digit
        · simp only [List.cons.injEq] at h
          exact absurd h.1 (by decide)
        · simp only [List.cons.injEq, true_and] at h
          subst h
          exact ⟨hd, hv, hmin⟩
    · simp only [hm, if_false]
      rw [signed_positive_branch]
      by_cases hp : c = '+'
      · subst hp
        simp only [if_true]
        constructor
        · rintro ⟨hd, hv, hmax⟩
          refine ⟨⟨rest, hd, Or.inl ⟨Or.inr rfl, hv⟩⟩, ?_, hmax⟩
          omega
        · rintro ⟨⟨ds, hd, (⟨h | h, hv⟩ | ⟨h, hv⟩)⟩, -, hmax⟩
          · subst h
            exact absurd (hd.2 '+' (List.mem_cons_self _ _)) plus_not_digit
          · simp only [List.cons.injEq, true_and] at h
            subst h
            exact ⟨hd, hv, hmax⟩
          · simp only [List.cons.injEq] at h
            exact absurd h.1 (by decide)
      · simp only [hp, if_false]
        constructor
        · rintro ⟨hd, hv, hmax⟩
          refine ⟨⟨c :: rest, hd, Or.inl ⟨Or.inl rfl, hv⟩⟩, ?_, hmax⟩
          omega
        · rintro ⟨⟨ds, hd, (⟨h | h, hv⟩ | ⟨h, hv⟩)⟩, -, hmax⟩
          · subst h
            exact ⟨hd, hv, hmax⟩
          · simp only [List.cons.injEq] at h
            exact absurd h.1 hp
          · simp only [List.cons.injEq] at h
            exact absurd h.1 hm

/-! ## The canonical rendering -/

theorem digitChar_spec (m : Nat) (hm : m < 10) :
    IsDecimalDigit (Nat.digitChar m) ∧ digitValue (Nat.digitChar m) = m := by
  interval_cases m <;> decide

theorem decimalValue_snoc (ds : CString) (c : Char) :
    decimalValue (ds ++ [c]) = 10 * decimalValue ds + digitValue c := by
  simp [decimalValue, decimalValueFrom, List.foldl_append]

theorem toDigitsCore_spec (fuel : Nat) :
    ∀ (n : Nat) (acc : List Char), n < fuel →
      ∃ ds : CString, Nat.toDigitsCore 10 fuel n acc = ds ++ acc ∧ IsDigitString ds ∧
        decimalValue ds = n := by
  induction fuel with
  | zero => intro n acc h; omega
  | succ fuel ih =>
    intro n acc hn
    have hmod : n % 10 < 10 := Nat.mod_lt _ (by decide)
    obtain ⟨hdig, hval⟩ := digitChar_spec (n % 10) hmod
    unfold Nat.toDigitsCore
    by_cases hq : n / 10 = 0
    · simp only [hq, if_true]
      refine ⟨[Nat.digitChar (n % 10)], rfl, ⟨by simp, ?_⟩, ?_⟩
      · intro c hc
        rw [List.mem_singleton] at hc
        rw [hc]
        exact hdig
      · have := decimalValue_snoc [] (Nat.digitChar (n % 10))
        simp only [List.nil_append] at this
        rw [this, hval]
        simp only [decimalValue, decimalValueFrom, List.foldl_nil]
        omega
    · simp only [hq, if_false]
      obtain ⟨ds, hds, hstr, hv⟩ := ih (n / 10) (Nat.digitChar (n % 10) :: acc) (by omega)
      refine ⟨ds ++ [Nat.digitChar (n % 10)], ?_, ⟨by simp, ?_⟩, ?_⟩
      · rw [hds, List.append_assoc, List.singleton_append]
      · intro c hc
        rw [List.mem_append, List.mem_singleton] at hc
        rcases hc with hc | hc
        · exact hstr.2 c hc
        · rw [hc]
          exact hdig
      · rw [decimalValue_snoc, hv, hval]
        omega

theorem render_nat_spec (n : Nat) :
    IsDigitString (render_nat n) ∧ decimalValue (render_nat n) = n := by
  obtain ⟨ds, hds, hstr, hv⟩ := toDigitsCore_spec (n + 1) n [] (by omega)
  have e : render_nat n = ds := by
    unfold render_nat Nat.toDigits
    rw [hds, List.append_nil]
  rw [e]
  exact ⟨hstr, hv⟩

theorem render_int_token (v : Int) : SignedToken (render_int v) v := by
  unfold render_int
  by_cases h : v < 0
  · rw [if_pos h]
    obtain ⟨hstr, hv⟩ := render_nat_spec v.natAbs
    exact ⟨render_nat v.natAbs, hstr, Or.inr ⟨rfl, by rw [hv]; omega⟩⟩
  · rw [if_neg h]
    obtain ⟨hstr, hv⟩ := render_nat_spec v.toNat
    exact ⟨render_nat v.toNat, hstr, Or.inl ⟨Or.inl rfl, by rw [hv]; omega⟩⟩

theorem modulus_eq_pow (w : Width) : w.modulus = 2 ^ w.bits := rfl

theorem two_pow_bits_pos (w : Width) : 0 < 2 ^ w.bits := by
  positivity

/-- A signed token denotes one integer only. -/
theorem signedToken_unique (s : CString) (v v2 : Int) (h1 : SignedToken s v)
    (h2 : SignedToken s v2) : v = v2 := by
  obtain ⟨ds, hd, h⟩ := h1
  obtain ⟨ds2, hd2, h2⟩ := h2
  rcases h with ⟨h | h, hv⟩ | ⟨h, hv⟩ <;> rcases h2 with ⟨h2 | h2, hv2⟩ | ⟨h2, hv2⟩ <;>
    subst h
  · subst h2; rw [hv, hv2]
  · subst h2; exact absurd (hd.2 '+' (List.mem_cons_self _ _)) plus_not_digit
  · subst h2; exact absurd (hd.2 '-' (List.mem_cons_self _ _)) minus_not_digit
  · rw [← h2] at hd2; exact absurd (hd2.2 '+' (List.mem_cons_self _ _)) plus_not_digit
  · simp only [List.cons.injEq, true_and] at h2; subst h2; rw [hv, hv2]
  · simp only [List.cons.injEq] at h2; exact absurd h2.1 (by decide)
  · rw [← h2] at hd2; exact absurd (hd2.2 '-' (List.mem_cons_self _ _)) minus_not_digit
  · simp only [List.cons.injEq] at h2; exact absurd h2.1 (by decide)
  · simp only [List.cons.injEq, true_and] at h2; subst h2; rw [hv, hv2]

/-! ## Contract of the integer conversions -/

/-- C1: for every unsigned width and every string `s`, the unsigned conversion
succeeds with value `n` if and only if `s` is one optional leading `+` followed
by a non-empty sequence of decimal digits whose decimal value is `n`, and
`n ≤ 2 ^ W - 1`; on every other string it fails with `bad_conversion`. -/
theorem unsigned_from_string_contract (w : Width) (s : CString) :
    (∀ n : Nat, from_string_unsigned w s = .ok n ↔
      (UnsignedToken s n ∧ n ≤ 2 ^ w.bits - 1)) ∧
    (from_string_unsigned w s = .error .bad_conversion ↔
      ¬ ∃ n : Nat, UnsignedToken s n ∧ n ≤ 2 ^ w.bits - 1) := by
  have hp := two_pow_bits_pos w
  have key : ∀ n : Nat, from_string_unsigned w s = .ok n ↔
      (UnsignedToken s n ∧ n ≤ 2 ^ w.bits - 1) := by
    intro n
    unfold from_string_unsigned
    rw [unsigned_from_string_ok, modulus_eq_pow]
    constructor
    · rintro ⟨ht, hn⟩
      exact ⟨ht, by omega⟩
    · rintro ⟨ht, hn⟩
      exact ⟨ht, by omega⟩
  refine ⟨key, ?_⟩
  rw [error_iff_not_ok]
  simp only [key]

/-- C2: for every signed width and every string `s`, `signed_from_string`
succeeds with value `v` if and only if `s` is one optional leading sign followed
by a non-empty sequence of decimal digits denoting the integer `v`, and
`-2 ^ (W - 1) ≤ v ≤ 2 ^ (W - 1) - 1`; on every other string it fails with
`bad_conversion`. -/
theorem signed_from_string_contract (w : Width) (s : CString) :
    (∀ v : Int, signed_from_string w s = .ok v ↔
      (SignedToken s v ∧ -(2 : Int) ^ (w.bits - 1) ≤ v ∧ v ≤ (2 : Int) ^ (w.bits - 1) - 1)) ∧
    (signed_from_string w s = .error .bad_conversion ↔
      ¬ ∃ v : Int, SignedToken s v ∧ -(2 : Int) ^ (w.bits - 1) ≤ v ∧
        v ≤ (2 : Int) ^ (w.bits - 1) - 1) := by
  have key : ∀ v : Int, signed_from_string w s = .ok v ↔
      (SignedToken s v ∧ -(2 : Int) ^ (w.bits - 1) ≤ v ∧ v ≤ (2 : Int) ^ (w.bits - 1) - 1) :=
    fun v => signed_from_string_ok w s v
  refine ⟨key, ?_⟩
  rw [error_iff_not_ok]
  simp only [key]

/-- C3: for every signed width, the decimal text of the minimum value (`-`
followed by the digits of `2 ^ (W - 1)`) parses to exactly `-2 ^ (W - 1)`, the
cast of the magnitude to the signed type and its negation being taken modulo
`2 ^ W`; in particular `-128` at 8 bits and `-2147483648` at 32 bits. -/
theorem signed_from_string_min (w : Width) :
    signed_from_string w ('-' :: render_nat (2 ^ (w.bits - 1))) = .ok (-(2 : Int) ^ (w.bits - 1)) ∧
    signed_from_string .w8 "-128".toList = .ok (-128) ∧
    signed_from_string .w32 "-2147483648".toList = .ok (-2147483648) := by
  refine ⟨?_, by decide, by decide⟩
  cases w <;> decide

/-- C4: for every signed width, `signed_from_string` fails on the decimal text
of `2 ^ (W - 1)` with or without a leading `+`, and on `-` followed by the
decimal text of any magnitude above `2 ^ (W - 1)`; no token denoting an integer
outside `[-2 ^ (W - 1), 2 ^ (W - 1) - 1]` is accepted. -/
theorem signed_from_string_out_of_range (w : Width) :
    signed_from_string w (render_nat (2 ^ (w.bits - 1))) = .error .bad_conversion ∧
    signed_from_string w ('+' :: render_nat (2 ^ (w.bits - 1))) = .error .bad_conversion ∧
    (∀ m : Nat, 2 ^ (w.bits - 1) < m →
      signed_from_string w ('-' :: render_nat m) = .error .bad_conversion) ∧
    (∀ (s : CString) (v : Int), SignedToken s v →
      (v < -(2 : Int) ^ (w.bits - 1) ∨ (2 : Int) ^ (w.bits - 1) - 1 < v) →
      signed_from_string w s = .error .bad_conversion) := by
  have hpos : (0 : Int) < (2 : Int) ^ (w.bits - 1) := by positivity
  have hsmin : w.smin = -(2 : Int) ^ (w.bits - 1) := rfl
  have hsmax : w.smax = (2 : Int) ^ (w.bits - 1) - 1 := rfl
  have gen : ∀ (s : CString) (v : Int), SignedToken s v →
      (v < -(2 : Int) ^ (w.bits - 1) ∨ (2 : Int) ^ (w.bits - 1) - 1 < v) →
      signed_from_string w s = .error .bad_conversion := by
    intro s v ht hv
    rw [error_iff_not_ok]
    rintro ⟨v2, h2⟩
    rw [signed_from_string_ok] at h2
    have := signedToken_unique s v v2 ht h2.1
    omega
  have hcast : (((2 ^ (w.bits - 1) : Nat) : Int)) = (2 : Int) ^ (w.bits - 1) := by
    push_cast
    rfl
  refine ⟨?_, ?_, ?_, gen⟩
  · obtain ⟨hstr, hv⟩ := render_nat_spec (2 ^ (w.bits - 1))
    exact gen _ ((2 ^ (w.bits - 1) : Nat) : Int)
      ⟨_, hstr, Or.inl ⟨Or.inl rfl, by rw [hv]⟩⟩ (Or.inr (by omega))
  · obtain ⟨hstr, hv⟩ := render_nat_spec (2 ^ (w.bits - 1))
    exact gen _ ((2 ^ (w.bits - 1) : Nat) : Int)
      ⟨_, hstr, Or.inl ⟨Or.inr rfl, by rw [hv]⟩⟩ (Or.inr (by omega))
  · intro m hm
    obtain ⟨hstr, hv⟩ := render_nat_spec m
    have hm2 : (2 : Int) ^ (w.bits - 1) < (m : Int) := by
      rw [← hcast]
      exact_mod_cast hm
    exact gen _ (-(m : Int)) ⟨_, hstr, Or.inr ⟨rfl, by rw [hv]⟩⟩ (Or.inl (by omega))

/-- Instance of C4 at 8 bits: `128`, `+128` and `-129` are rejected. -/
theorem signed_from_string_out_of_range_witness :
    signed_from_string .w8 "128".toList = .error .bad_conversion ∧
    signed_from_string .w8 "+128".toList = .error .bad_conversion ∧
    signed_from_string .w8 "-129".toList = .error .bad_conversion :=
  ⟨(signed_from_string_out_of_range .w8).1, (signed_from_string_out_of_range .w8).2.1,
    (signed_from_string_out_of_range .w8).2.2.1 129 (by decide)⟩

/-- C5: round trip for integers.  For every width, every unsigned value up to
`2 ^ W - 1` and every signed value in `[-2 ^ (W - 1), 2 ^ (W - 1) - 1]` is
returned by the parser of its kind on its canonical decimal rendering; hence the
value of any successful parse parses back to itself from its rendering. -/
theorem integer_round_trip (w : Width) :
    (∀ n : Nat, n ≤ 2 ^ w.bits - 1 → from_string_unsigned w (render_nat n) = .ok n) ∧
    (∀ v : Int, -(2 : Int) ^ (w.bits - 1) ≤ v → v ≤ (2 : Int) ^ (w.bits - 1) - 1 →
      from_string_signed w (render_int v) = .ok v) ∧
    (∀ (s : CString) (n : Nat), from_string_unsigned w s = .ok n →
      from_string_unsigned w (render_nat n) = .ok n) ∧
    (∀ (s : CString) (v : Int), from_string_signed w s = .ok v →
      from_string_signed w (render_int v) = .ok v) := by
  have hp := two_pow_bits_pos w
  have hu : ∀ n : Nat, n < w.modulus → from_string_unsigned w (render_nat n) = .ok n := by
    intro n hn
    obtain ⟨hstr, hv⟩ := render_nat_spec n
    unfold from_string_unsigned
    rw [unsigned_from_string_ok]
    exact ⟨⟨render_nat n, Or.inl rfl, hstr, hv⟩, hn⟩
  have hs : ∀ v : Int, w.smin ≤ v → v ≤ w.smax → from_string_signed w (render_int v) = .ok v := by
    intro v h1 h2
    unfold from_string_signed
    rw [signed_from_string_ok]
    exact ⟨render_int_token v, h1, h2⟩
  refine ⟨?_, ?_, ?_, ?_⟩
  · intro n hn
    exact hu n (by rw [modulus_eq_pow]; omega)
  · intro v h1 h2
    exact hs v h1 h2
  · intro s n h
    unfold from_string_unsigned at h
    rw [unsigned_from_string_ok] at h
    exact hu n h.2
  · intro s v h
    unfold from_string_signed at h
    rw [signed_from_string_ok] at h
    exact hs v h.2.1 h.2.2

/-- Instance of C5: `255` as an unsigned 8-bit value, `-128` as a signed 8-bit
value, and the results of parsing `+5` and `-007`. -/
theorem integer_round_trip_witness :
    from_string_unsigned .w8 (render_nat 255) = .ok 255 ∧
    from_string_signed .w8 (render_int (-128)) = .ok (-128) ∧
    from_string_unsigned .w8 (render_nat 5) = .ok 5 ∧
    from_string_signed .w8 (render_int (-7)) = .ok (-7) :=
  ⟨(integer_round_trip .w8).1 255 (by decide),
    (integer_round_trip .w8).2.1 (-128) (by decide) (by decide),
    (integer_round_trip .w8).2.2.1 "+5".toList 5 (by decide),
    (integer_round_trip .w8).2.2.2 "-007".toList (-7) (by decide)⟩

/-- C6: a leading `+` is neutral.  For every width and every non-empty string
`d` of decimal digits, parsing `+d` gives the same outcome as parsing `d`, for
the unsigned and for the signed kind. -/
theorem leading_plus_neutral (w : Width) (d : CString) (hd : IsDigitString d) :
    from_string_unsigned w ('+' :: d) = from_string_unsigned w d ∧
    from_string_signed w ('+' :: d) = from_string_signed w d := by
  cases d with
  | nil => exact absurd rfl hd.1
  | cons c cs =>
    have hc : IsDecimalDigit c := hd.2 c (List.mem_cons_self _ _)
    have hplus : c ≠ '+' := fun h => plus_not_digit (h ▸ hc)
    have hminus : c ≠ '-' := fun h => minus_not_digit (h ▸ hc)
    constructor
    · simp only [from_string_unsigned, unsigned_from_string, if_true, hplus, if_false]
    · have h1 : ('+' : Char) ≠ '-' := by decide
      simp only [from_string_signed, signed_from_string, if_true, hplus, hminus, h1, if_false]

/-- Instance of C6: `+5` and `5` parse to the same value at 8 bits. -/
theorem leading_plus_neutral_witness :
    IsDigitString "5".toList ∧
    (from_string_unsigned .w8 "+5".toList = from_string_unsigned .w8 "5".toList ∧
      from_string_signed .w8 "+5".toList = from_string_signed .w8 "5".toList) :=
  ⟨by decide, leading_plus_neutral .w8 "5".toList (by decide)⟩

/-- C7, as stated, fails: `+5` contains the non-digit character `+` and is
accepted at every unsigned width. -/
theorem unsigned_nondigit_counterexample :
    (∃ c ∈ "+5".toList, ¬ IsDecimalDigit c) ∧
    from_string_unsigned .w8 "+5".toList = .ok 5 ∧
    from_string_unsigned .w16 "+5".toList = .ok 5 ∧
    from_string_unsigned .w32 "+5".toList = .ok 5 ∧
    from_string_unsigned .w64 "+5".toList = .ok 5 := by
  refine ⟨⟨'+', by decide, by decide⟩, by decide, by decide, by decide, by decide⟩

/-- C7 (amended): for every unsigned width, parsing fails for any string that
contains a non-digit character other than one leading `+`, that is, whose first
character is a non-digit other than `+` or which has a non-digit character after
the first. -/
theorem unsigned_nondigit_fails (w : Width) (s : CString)
    (h : (∃ c, s.head? = some c ∧ ¬ IsDecimalDigit c ∧ c ≠ '+') ∨
      (∃ c ∈ s.tail, ¬ IsDecimalDigit c)) :
    from_string_unsigned w s = .error .bad_conversion := by
  rw [error_iff_not_ok]
  rintro ⟨n, hn⟩
  unfold from_string_unsigned at hn
  rw [unsigned_from_string_ok] at hn
  obtain ⟨⟨ds, hs, hd, -⟩, -⟩ := hn
  rcases hs with hs | hs <;> subst hs
  · rcases h with ⟨c, hc, hnd, -⟩ | ⟨c, hc, hnd⟩
    · exact hnd (hd.2 c (List.mem_of_mem_head? hc))
    · exact hnd (hd.2 c (List.mem_of_mem_tail hc))
  · rcases h with ⟨c, hc, -, hne⟩ | ⟨c, hc, hnd⟩
    · simp only [List.head?_cons, Option.some.injEq] at hc
      exact hne hc.symm
    · exact hnd (hd.2 c hc)

/-- Instance of C7 (amended): `1x` and `-1` are rejected at 8 bits. -/
theorem unsigned_nondigit_fails_witness :
    from_string_unsigned .w8 "1x".toList = .error .bad_conversion ∧
    from_string_unsigned .w8 "-1".toList = .error .bad_conversion :=
  ⟨unsigned_nondigit_fails .w8 "1x".toList (Or.inr ⟨'x', by decide, by decide⟩),
    unsigned_nondigit_fails .w8 "-1".toList (Or.inl ⟨'-', by decide, by decide, by decide⟩)⟩

/-! ## Contract of the boolean and character conversions -/

/-- The outcome of `from_string<bool>` on a string that is neither literal, in
terms of the outcome of the 64-bit signed conversion. -/
theorem from_string_bool_of_not_literal (s : CString) (h1 : s ≠ "true".toList)
    (h2 : s ≠ "false".toList) :
    from_string_bool s =
      if signed_from_string .w64 s = .ok 1 then .ok true
      else if signed_from_string .w64 s = .ok 0 then .ok false
      else .error .bad_conversion := by
  unfold from_string_bool
  rw [if_neg h1, if_neg h2]
  cases h : signed_from_string .w64 s with
  | error e =>
    cases e
    simp
  | ok v =>
    by_cases hv1 : v = 1
    · subst hv1
      simp
    · by_cases hv0 : v = 0
      · subst hv0
        simp
      · simp [hv1, hv0]

/-- C8: `from_string<bool>` returns `true` on `true`, `false` on `false`, and on
every other string returns `true` exactly when the 64-bit signed conversion
succeeds with value 1, `false` exactly when it succeeds with value 0, and fails
with `bad_conversion` in every remaining case; `2` and `yes` fail. -/
theorem from_string_bool_contract (s : CString) :
    (s = "true".toList → from_string_bool s = .ok true) ∧
    (s = "false".toList → from_string_bool s = .ok false) ∧
    (s ≠ "true".toList → s ≠ "false".toList →
      ((from_string_bool s = .ok true ↔ signed_from_string .w64 s = .ok 1) ∧
        (from_string_bool s = .ok false ↔ signed_from_string .w64 s = .ok 0) ∧
        (from_string_bool s = .error .bad_conversion ↔
          ¬ (signed_from_string .w64 s = .ok 1 ∨ signed_from_string .w64 s = .ok 0)))) ∧
    from_string_bool "2".toList = .error .bad_conversion ∧
    from_string_bool "yes".toList = .error .bad_conversion := by
  refine ⟨?_, ?_, ?_, by decide, by decide⟩
  · intro h
    subst h
    decide
  · intro h
    subst h
    decide
  · intro h1 h2
    rw [from_string_bool_of_not_literal s h1 h2]
    by_cases c1 : signed_from_string .w64 s = .ok 1
    · simp [c1]
    · by_cases c0 : signed_from_string .w64 s = .ok 0
      · simp [c0]
      · simp [c1, c0]

/-- Instance of C8: `1` is neither literal and parses to the integer 1, so it
converts to `true`. -/
theorem from_string_bool_contract_witness :
    from_string_bool "true".toList = .ok true ∧
    from_string_bool "false".toList = .ok false ∧
    (from_string_bool "1".toList = .ok true ↔ signed_from_string .w64 "1".toList = .ok 1) :=
  ⟨(from_string_bool_contract "true".toList).1 rfl,
    (from_string_bool_contract "false".toList).2.1 rfl,
    ((from_string_bool_contract "1".toList).2.2.1 (by decide) (by decide)).1⟩

/-- C9, as stated, fails: `+1`, `01` and `-0` are none of `true`, `false`, `0`,
`1`, and are accepted. -/
theorem from_string_bool_counterexample :
    from_string_bool "+1".toList = .ok true ∧
    from_string_bool "01".toList = .ok true ∧
    from_string_bool "-0".toList = .ok false ∧
    "+1".toList ≠ "true".toList ∧ "+1".toList ≠ "false".toList ∧
    "+1".toList ≠ "0".toList ∧ "+1".toList ≠ "1".toList := by
  decide

/-- C9 (amended): every token other than `true`, `false` and the decimal
spellings of the integers 0 and 1 (an optional sign followed by a non-empty
digit string of value 0 or 1) is rejected by `from_string<bool>`. -/
theorem from_string_bool_rejects (s : CString) (h1 : s ≠ "true".toList)
    (h2 : s ≠ "false".toList) (h3 : ¬ SignedToken s 0) (h4 : ¬ SignedToken s 1) :
    from_string_bool s = .error .bad_conversion := by
  rw [from_string_bool_of_not_literal s h1 h2]
  have c1 : ¬ signed_from_string .w64 s = .ok 1 := by
    intro h
    rw [signed_from_string_ok] at h
    exact h4 h.1
  have c0 : ¬ signed_from_string .w64 s = .ok 0 := by
    intro h
    rw [signed_from_string_ok] at h
    exact h3 h.1
  rw [if_neg c1, if_neg c0]

theorem signedToken_two : SignedToken "2".toList 2 := by
  exact ⟨"2".toList, by decide, Or.inl ⟨Or.inl rfl, by decide⟩⟩

/-- Instance of C9 (amended): the token `2` denotes neither 0 nor 1 and is
rejected. -/
theorem from_string_bool_rejects_witness :
    from_string_bool "2".toList = .error .bad_conversion :=
  from_string_bool_rejects "2".toList (by decide) (by decide)
    (fun h => absurd (signedToken_unique _ _ _ h signedToken_two) (by decide))
    (fun h => absurd (signedToken_unique _ _ _ h signedToken_two) (by decide))

/-- C10: `from_string<char>` succeeds if and only if the string has exactly one
character, and then returns that character unchanged; the empty string and
every string of length 2 or more fail with `bad_conversion`. -/
theorem from_string_char_contract (s : CString) :
    (∀ c : Char, from_string_char s = .ok c ↔ s = [c]) ∧
    (from_string_char s = .error .bad_conversion ↔ s.length ≠ 1) ∧
    from_string_char "a".toList = .ok 'a' ∧
    from_string_char "7".toList = .ok '7' ∧
    from_string_char "".toList = .error .bad_conversion ∧
    from_string_char "ab".toList = .error .bad_conversion := by
  refine ⟨?_, ?_, by decide, by decide, by decide, by decide⟩
  · intro c
    unfold from_string_char
    match s with
    | [] => simp
    | [a] => simp
    | a :: b :: rest => simp
  · unfold from_string_char
    match s with
    | [] => simp
    | [a] => simp
    | a :: b :: rest => simp

/-! ## Floating point, string and null-sentinel conversions -/

theorem isspace_iff (c : Char) : isspace c = true ↔ IsWhitespace c := by
  constructor
  · intro h
    have hn : c.toNat = 32 ∨ (9 ≤ c.toNat ∧ c.toNat ≤ 13) := by
      simpa [isspace] using h
    have hc : c = Char.ofNat c.toNat := (Char.ofNat_toNat c).symm
    generalize c.toNat = n at hc hn
    subst hc
    rcases hn with hn | ⟨h1, h2⟩
    · subst hn
      decide
    · interval_cases n <;> decide
  · intro h
    rcases h with h | h | h | h | h | h <;> subst h <;> decide

theorem any_isspace_iff (s : CString) : s.any isspace = true ↔ ∃ c ∈ s, IsWhitespace c := by
  simp only [List.any_eq_true, isspace_iff]

theorem from_string_double_eq_float {F : Type} (conv : CString → Option (F × Nat))
    (s : CString) : from_string_double conv s = from_string_float conv s := rfl

theorem from_string_long_double_eq_float {F : Type} (conv : CString → Option (F × Nat))
    (s : CString) : from_string_long_double conv s = from_string_float conv s := rfl

theorem from_string_float_ok {F : Type} (conv : CString → Option (F × Nat)) (s : CString)
    (v : F) :
    from_string_float conv s = .ok v ↔
      (¬ ∃ c ∈ s, IsWhitespace c) ∧ conv s = some (v, s.length) := by
  unfold from_string_float
  rw [← any_isspace_iff]
  by_cases hw : s.any isspace = true
  · simp [hw]
  · simp only [hw, Bool.false_eq_true, if_false, not_false_eq_true, true_and]
    cases hc : conv s with
    | none => simp
    | some p =>
      obtain ⟨r, sz⟩ := p
      by_cases hsz : sz = s.length
      · subst hsz
        simp
      · simp [hsz]

theorem from_string_float_whitespace {F : Type} (conv : CString → Option (F × Nat))
    (s : CString) (h : ∃ c ∈ s, IsWhitespace c) :
    from_string_float conv s = .error .bad_conversion := by
  rw [error_iff_not_ok]
  rintro ⟨v, hv⟩
  rw [from_string_float_ok] at hv
  exact hv.1 h

/-- C11: for each floating-point kind, a string containing a whitespace
character at any position (space, tab, newline, vertical tab, form feed,
carriage return) is rejected with `bad_conversion`, whatever the underlying
conversion returns. -/
theorem floating_whitespace_rejected {F : Type} (conv : CString → Option (F × Nat))
    (s : CString) (h : ∃ c ∈ s, IsWhitespace c) :
    from_string_float conv s = .error .bad_conversion ∧
    from_string_double conv s = .error .bad_conversion ∧
    from_string_long_double conv s = .error .bad_conversion := by
  refine ⟨from_string_float_whitespace conv s h, ?_, ?_⟩
  · rw [from_string_double_eq_float]
    exact from_string_float_whitespace conv s h
  · rw [from_string_long_double_eq_float]
    exact from_string_float_whitespace conv s h

/-- Instance of C11: with an underlying conversion that accepts every string in
full, `3.14` followed by a space is rejected by all three kinds. -/
theorem floating_whitespace_rejected_witness :
    (∃ c ∈ "3.14 ".toList, IsWhitespace c) ∧
    (from_string_float (fun s => some ((0 : Int), s.length)) "3.14 ".toList
        = .error .bad_conversion ∧
      from_string_double (fun s => some ((0 : Int), s.length)) "3.14 ".toList
        = .error .bad_conversion ∧
      from_string_long_double (fun s => some ((0 : Int), s.length)) "3.14 ".toList
        = .error .bad_conversion) :=
  ⟨⟨' ', by decide, by decide⟩,
    floating_whitespace_rejected (fun s => some ((0 : Int), s.length)) "3.14 ".toList
      ⟨' ', by decide, by decide⟩⟩

/-- C12: for each floating-point kind, over an arbitrary underlying conversion
that either fails or returns a value and a count of consumed characters, the
conversion succeeds with `v` if and only if the string has no whitespace and the
underlying conversion returns `v` having consumed the whole string; every other
case (underlying failure, unconsumed suffix, whitespace) is `bad_conversion`. -/
theorem floating_contract {F : Type} (conv : CString → Option (F × Nat)) (s : CString) :
    (∀ v : F, from_string_float conv s = .ok v ↔
      ((¬ ∃ c ∈ s, IsWhitespace c) ∧ conv s = some (v, s.length))) ∧
    (∀ v : F, from_string_double conv s = .ok v ↔
      ((¬ ∃ c ∈ s, IsWhitespace c) ∧ conv s = some (v, s.length))) ∧
    (∀ v : F, from_string_long_double conv s = .ok v ↔
      ((¬ ∃ c ∈ s, IsWhitespace c) ∧ conv s = some (v, s.length))) ∧
    (from_string_float conv s = .error .bad_conversion ↔
      ¬ ∃ v : F, (¬ ∃ c ∈ s, IsWhitespace c) ∧ conv s = some (v, s.length)) ∧
    (from_string_double conv s = .error .bad_conversion ↔
      ¬ ∃ v : F, (¬ ∃ c ∈ s, IsWhitespace c) ∧ conv s = some (v, s.length)) ∧
    (from_string_long_double conv s = .error .bad_conversion ↔
      ¬ ∃ v : F, (¬ ∃ c ∈ s, IsWhitespace c) ∧ conv s = some (v, s.length)) := by
  have key := from_string_float_ok conv s
  have herr : from_string_float conv s = .error .bad_conversion ↔
      ¬ ∃ v : F, (¬ ∃ c ∈ s, IsWhitespace c) ∧ conv s = some (v, s.length) := by
    rw [error_iff_not_ok]
    simp only [key]
  refine ⟨key, ?_, ?_, herr, ?_, ?_⟩
  · intro v
    rw [from_string_double_eq_float]
    exact key v
  · intro v
    rw [from_string_long_double_eq_float]
    exact key v
  · rw [from_string_double_eq_float]
    exact herr
  · rw [from_string_long_double_eq_float]
    exact herr

/-- C13: the empty string fails with `bad_conversion` for every signed and
unsigned integer kind, for `bool`, for `char` and, when the underlying
conversion rejects empty input, for the three floating-point kinds; for
`std::string` it returns the empty string and for `std::nullptr_t` the sentinel. -/
theorem empty_string_outcomes (w : Width) :
    from_string_unsigned w [] = .error .bad_conversion ∧
    from_string_signed w [] = .error .bad_conversion ∧
    from_string_bool [] = .error .bad_conversion ∧
    from_string_char [] = .error .bad_conversion ∧
    (∀ (F : Type) (conv : CString → Option (F × Nat)), conv [] = none →
      (from_string_float conv [] = .error .bad_conversion ∧
        from_string_double conv [] = .error .bad_conversion ∧
        from_string_long_double conv [] = .error .bad_conversion)) ∧
    from_string_string [] = .ok [] ∧
    from_string_nullptr [] = .ok () := by
  refine ⟨rfl, rfl, by decide, by decide, ?_, rfl, rfl⟩
  intro F conv h
  have hf : from_string_float conv [] = .error .bad_conversion := by
    simp [from_string_float, h]
  exact ⟨hf, hf, hf⟩

/-- Instance of C13: an underlying conversion that rejects exactly the empty
string makes the three floating-point kinds fail on it. -/
theorem empty_string_outcomes_witness :
    from_string_float (fun s => if s = [] then none else some ((0 : Int), s.length)) []
        = .error .bad_conversion ∧
    from_string_double (fun s => if s = [] then none else some ((0 : Int), s.length)) []
        = .error .bad_conversion ∧
    from_string_long_double (fun s => if s = [] then none else some ((0 : Int), s.length)) []
        = .error .bad_conversion :=
  (empty_string_outcomes .w8).2.2.2.2.1 Int
    (fun s => if s = [] then none else some ((0 : Int), s.length)) rfl

/-- C14: `from_string<std::string>` returns its argument unchanged and
`from_string<std::nullptr_t>` returns the sentinel, for every string; neither
fails. -/
theorem string_and_nullptr_total (s : CString) :
    from_string_string s = .ok s ∧
    from_string_nullptr s = .ok () ∧
    from_string_string s ≠ .error .bad_conversion ∧
    from_string_nullptr s ≠ .error .bad_conversion := by
  refine ⟨rfl, rfl, ?_, ?_⟩
  · intro h
    exact Except.noConfusion h
  · intro h
    exact Except.noConfusion h

/-! ## The overflow check of the digit loop -/

theorem overflow_check_eq_or (w : Width) (r d tmp : Nat) :
    overflow_check w r d tmp = (reconstruction_differs w r d tmp || value_decreased w r tmp) := by
  cases w <;> rfl

/-- C15: the per-step overflow check is exact at every width.  For an
accumulator `r ≤ 2 ^ W - 1` and a digit `d ≤ 9`, `tmp` is `r * 10 + d` truncated
to `W` bits, and the condition `r != (tmp - d)/10 || tmp < r` holds if and only
if `r * 10 + d` exceeds `2 ^ W - 1`. -/
theorem overflow_check_exact (w : Width) (r d : Nat) (hr : r ≤ 2 ^ w.bits - 1) (hd : d ≤ 9) :
    next_value w r d = (r * 10 + d) % 2 ^ w.bits ∧
    ((reconstruction_differs w r d (next_value w r d)
        || value_decreased w r (next_value w r d)) = true ↔ 2 ^ w.bits - 1 < r * 10 + d) ∧
    (overflow_check w r d (next_value w r d) = true ↔ 2 ^ w.bits - 1 < r * 10 + d) := by
  have hp := two_pow_bits_pos w
  have hlt : r < w.modulus := by
    rw [modulus_eq_pow]
    omega
  have key : overflow_check w r d (next_value w r d) = true ↔ 2 ^ w.bits - 1 < r * 10 + d := by
    rw [overflow_check_iff w r d hlt hd, modulus_eq_pow]
    omega
  refine ⟨?_, ?_, key⟩
  · rw [next_value_eq, modulus_eq_pow, Nat.mul_comm]
  · rw [← overflow_check_eq_or]
    exact key

/-- Instance of C15 at 8 bits: from the accumulator 25 the digit 5 is accepted
(255) and the digit 6 is rejected (256). -/
theorem overflow_check_exact_witness :
    overflow_check .w8 25 5 (next_value .w8 25 5) = false ∧
    overflow_check .w8 25 6 (next_value .w8 25 6) = true := by
  have h5 := (overflow_check_exact .w8 25 5 (by decide) (by decide)).2.2
  have h6 := (overflow_check_exact .w8 25 6 (by decide) (by decide)).2.2
  constructor
  · cases h : overflow_check .w8 25 5 (next_value .w8 25 5) with
    | false => rfl
    | true => exact absurd (h5.1 h) (by decide)
  · exact h6.2 (by decide)

/-- C16: at 32 and 64 bits both disjuncts of the overflow check are needed.  The
check is the disjunction of the reconstruction test and the comparison; there
is a reachable overflowing step that the reconstruction test alone lets through
(32 bits: accumulator 429496729 and digit 6, from the token `4294967296`) and a
reachable overflowing step that the comparison alone lets through (32 bits:
accumulator 1000000000 and digit 0); each is rejected by the other disjunct. -/
theorem overflow_check_both_disjuncts_needed :
    (∀ (w : Width) (r d tmp : Nat), overflow_check w r d tmp =
      (reconstruction_differs w r d tmp || value_decreased w r tmp)) ∧
    (digits_loop .w32 0 "429496729".toList = .ok 429496729 ∧
      2 ^ 32 - 1 < 429496729 * 10 + 6 ∧
      reconstruction_differs .w32 429496729 6 (next_value .w32 429496729 6) = false ∧
      value_decreased .w32 429496729 (next_value .w32 429496729 6) = true ∧
      unsigned_digits_from_string .w32 "4294967296".toList = .error .bad_conversion) ∧
    (digits_loop .w32 0 "1000000000".toList = .ok 1000000000 ∧
      2 ^ 32 - 1 < 1000000000 * 10 + 0 ∧
      reconstruction_differs .w32 1000000000 0 (next_value .w32 1000000000 0) = true ∧
      value_decreased .w32 1000000000 (next_value .w32 1000000000 0) = false ∧
      unsigned_digits_from_string .w32 "10000000000".toList = .error .bad_conversion) ∧
    (digits_loop .w64 0 "1844674407370955161".toList = .ok 1844674407370955161 ∧
      2 ^ 64 - 1 < 1844674407370955161 * 10 + 6 ∧
      reconstruction_differs .w64 1844674407370955161 6
        (next_value .w64 1844674407370955161 6) = false ∧
      value_decreased .w64 1844674407370955161 (next_value .w64 1844674407370955161 6) = true ∧
      unsigned_digits_from_string .w64 "18446744073709551616".toList
        = .error .bad_conversion) ∧
    (digits_loop .w64 0 "3000000000000000000".toList = .ok 3000000000000000000 ∧
      2 ^ 64 - 1 < 3000000000000000000 * 10 + 0 ∧
      reconstruction_differs .w64 3000000000000000000 0
        (next_value .w64 3000000000000000000 0) = true ∧
      value_decreased .w64 3000000000000000000 (next_value .w64 3000000000000000000 0) = false ∧
      unsigned_digits_from_string .w64 "30000000000000000000".toList
        = .error .bad_conversion) := by
  refine ⟨overflow_check_eq_or, ?_, ?_, ?_, ?_⟩
  · refine ⟨by decide, by decide, by decide, by decide, by decide⟩
  · refine ⟨by decide, by decide, by decide, by decide, by decide⟩
  · refine ⟨by decide, by decide, by decide, by decide, by decide⟩
  · refine ⟨by decide, by decide, by decide, by decide, by decide⟩

/-! ## Relations between the integer parsers -/

theorem digit_step_zero (w : Width) : digit_step w 0 '0' = .ok 0 := by
  cases w <;> decide

theorem unsigned_digits_zero_cons (w : Width) (d : CString) (hd : d ≠ []) :
    unsigned_digits_from_string w ('0' :: d) = unsigned_digits_from_string w d := by
  cases d with
  | nil => exact absurd rfl hd
  | cons c cs =>
    simp only [unsigned_digits_from_string, List.isEmpty_cons, Bool.false_eq_true, if_false]
    rw [digits_loop, digit_step_zero]

theorem unsigned_digits_zeros_append (w : Width) (d : CString) (hd : d ≠ []) (k : Nat) :
    unsigned_digits_from_string w (List.replicate k '0' ++ d) =
      unsigned_digits_from_string w d := by
  induction k with
  | zero => simp
  | succ k ih =>
    rw [List.replicate_succ, List.cons_append, unsigned_digits_zero_cons w _ (by simp [hd]), ih]

/-- C17: leading zeros are accepted and do not change the result.  For every
width and every non-empty string `d` of decimal digits, the digit loop has the
same outcome on `0d` (and on `d` after any number of zeros) as on `d`; hence so
have `unsigned_from_string` and `signed_from_string` on the digits after the
optional sign. -/
theorem leading_zero_neutral (w : Width) (d : CString) (hd : IsDigitString d) :
    unsigned_digits_from_string w ('0' :: d) = unsigned_digits_from_string w d ∧
    (∀ k : Nat, unsigned_digits_from_string w (List.replicate k '0' ++ d) =
      unsigned_digits_from_string w d) ∧
    unsigned_from_string w ('0' :: d) = unsigned_from_string w d ∧
    unsigned_from_string w ('+' :: '0' :: d) = unsigned_from_string w ('+' :: d) ∧
    signed_from_string w ('0' :: d) = signed_from_string w d ∧
    signed_from_string w ('+' :: '0' :: d) = signed_from_string w ('+' :: d) ∧
    signed_from_string w ('-' :: '0' :: d) = signed_from_string w ('-' :: d) := by
  have h0 := unsigned_digits_zero_cons w d hd.1
  have z1 : ('0' : Char) ≠ '+' := by decide
  have z2 : ('0' : Char) ≠ '-' := by decide
  have p2 : ('+' : Char) ≠ '-' := by decide
  cases d with
  | nil => exact absurd rfl hd.1
  | cons c cs =>
    have hc : IsDecimalDigit c := hd.2 c (List.mem_cons_self _ _)
    have hplus : c ≠ '+' := fun h => plus_not_digit (h ▸ hc)
    have hminus : c ≠ '-' := fun h => minus_not_digit (h ▸ hc)
    refine ⟨h0, unsigned_digits_zeros_append w _ hd.1, ?_, ?_, ?_, ?_, ?_⟩
    · simp only [unsigned_from_string, z1, hplus, if_false, h0]
    · simp only [unsigned_from_string, if_true, h0]
    · simp only [signed_from_string, z1, z2, hplus, hminus, if_false, h0]
    · simp only [signed_from_string, p2, if_true, if_false, h0]
    · simp only [signed_from_string, if_true, h0]

/-- Instance of C17 at 8 bits: `007` parses to 7 like `7`, and `-000128` parses
to -128 like `-128`. -/
theorem leading_zero_neutral_witness :
    unsigned_from_string .w8 "07".toList = unsigned_from_string .w8 "7".toList ∧
    unsigned_digits_from_string .w8 "007".toList = .ok 7 ∧
    signed_from_string .w8 "-0128".toList = signed_from_string .w8 "-128".toList ∧
    unsigned_digits_from_string .w8 "000128".toList = .ok 128 ∧
    signed_from_string .w8 "-000128".toList = .ok (-128) := by
  have h7 := leading_zero_neutral .w8 "7".toList (by decide)
  have h128 := leading_zero_neutral .w8 "128".toList (by decide)
  refine ⟨h7.2.2.1, ?_, h128.2.2.2.2.2.2, ?_, by decide⟩
  · exact (h7.2.1 2).trans (by decide)
  · exact (h128.2.1 3).trans (by decide)

theorem modulus_le_of_bits_lt (w w2 : Width) (h : w.bits < w2.bits) :
    w.modulus ≤ w2.modulus := by
  unfold Width.modulus
  exact Nat.pow_le_pow_right (by decide) (by omega)

theorem half_le_of_bits_lt (w w2 : Width) (h : w.bits < w2.bits) :
    (2 : Int) ^ (w.bits - 1) ≤ (2 : Int) ^ (w2.bits - 1) := by
  have : (2 : Nat) ^ (w.bits - 1) ≤ (2 : Nat) ^ (w2.bits - 1) :=
    Nat.pow_le_pow_right (by decide) (by omega)
  exact_mod_cast this

/-- C18: widening never changes a result.  For widths `W < W2`, a string that
the unsigned `W`-bit parser accepts with value `n` is accepted with the same
value by the unsigned `W2`-bit parser, and likewise for `signed_from_string`. -/
theorem widening_preserves (w w2 : Width) (h : w.bits < w2.bits) (s : CString) :
    (∀ n : Nat, from_string_unsigned w s = .ok n → from_string_unsigned w2 s = .ok n) ∧
    (∀ v : Int, signed_from_string w s = .ok v → signed_from_string w2 s = .ok v) := by
  have hm := modulus_le_of_bits_lt w w2 h
  have hh := half_le_of_bits_lt w w2 h
  constructor
  · intro n hn
    unfold from_string_unsigned at hn ⊢
    rw [unsigned_from_string_ok] at hn ⊢
    exact ⟨hn.1, by omega⟩
  · intro v hv
    rw [signed_from_string_ok] at hv ⊢
    have e1 : w.smin = -(2 : Int) ^ (w.bits - 1) := rfl
    have e2 : w.smax = (2 : Int) ^ (w.bits - 1) - 1 := rfl
    have e3 : w2.smin = -(2 : Int) ^ (w2.bits - 1) := rfl
    have e4 : w2.smax = (2 : Int) ^ (w2.bits - 1) - 1 := rfl
    exact ⟨hv.1, by omega, by omega⟩

/-- Instance of C18: `200` at 8 and 16 bits unsigned, `-128` at 8 and 64 bits
signed. -/
theorem widening_preserves_witness :
    from_string_unsigned .w16 "200".toList = .ok 200 ∧
    signed_from_string .w64 "-128".toList = .ok (-128) :=
  ⟨(widening_preserves .w8 .w16 (by decide) "200".toList).1 200 (by decide),
    (widening_preserves .w8 .w64 (by decide) "-128".toList).2 (-128) (by decide)⟩

theorem signedToken_of_no_minus (s : CString) (h : s.head? ≠ some '-') (v : Int) :
    SignedToken s v ↔ ∃ n : Nat, (n : Int) = v ∧ UnsignedToken s n := by
  constructor
  · rintro ⟨ds, hd, (⟨hs, hv⟩ | ⟨hs, -⟩)⟩
    · exact ⟨decimalValue ds, hv.symm, ds, hs, hd, rfl⟩
    · subst hs
      exact absurd rfl h
  · rintro ⟨n, hn, ds, hs, hd, hv⟩
    exact ⟨ds, hd, Or.inl ⟨hs, by rw [hv, hn]⟩⟩

/-- C19: the signed and unsigned parsers of one width agree on tokens without a
minus sign.  For a string whose first character is not `-`,
`signed_from_string` succeeds with value `v` if and only if
`unsigned_from_string` succeeds with value `v` and `v ≤ 2 ^ (W - 1) - 1`. -/
theorem signed_unsigned_agree (w : Width) (s : CString) (h : s.head? ≠ some '-') (v : Int) :
    signed_from_string w s = .ok v ↔
      ∃ n : Nat, (n : Int) = v ∧ unsigned_from_string w s = .ok n ∧
        v ≤ (2 : Int) ^ (w.bits - 1) - 1 := by
  have hpos : (0 : Int) < (2 : Int) ^ (w.bits - 1) := by positivity
  have hm := modulus_eq_two_half w
  have e1 : w.smin = -(2 : Int) ^ (w.bits - 1) := rfl
  have e2 : w.smax = (2 : Int) ^ (w.bits - 1) - 1 := rfl
  rw [signed_from_string_ok, signedToken_of_no_minus s h]
  constructor
  · rintro ⟨⟨n, hn, ht⟩, -, hmax⟩
    refine ⟨n, hn, ?_, by omega⟩
    rw [unsigned_from_string_ok]
    exact ⟨ht, by omega⟩
  · rintro ⟨n, hn, hu, hmax⟩
    rw [unsigned_from_string_ok] at hu
    exact ⟨⟨n, hn, hu.1⟩, by omega, by omega⟩

/-- Instance of C19 at 8 bits: `+127` is accepted by both parsers with value
127. -/
theorem signed_unsigned_agree_witness :
    "+127".toList.head? ≠ some '-' ∧
    (signed_from_string .w8 "+127".toList = .ok 127 ↔
      ∃ n : Nat, (n : Int) = 127 ∧ unsigned_from_string .w8 "+127".toList = .ok n ∧
        (127 : Int) ≤ (2 : Int) ^ (Width.bits .w8 - 1) - 1) :=
  ⟨by decide, signed_unsigned_agree .w8 "+127".toList (by decide) 127⟩

end cli.detail
